import Mathlib

/-!
# Verification of zustand-tracked's dependency-tracking engine

This file is a shallow embedding of the `zustand-tracked` library: the
tracked-selector unit (`useTrackedSelector`), the tracked-computer unit
(`createTrackedComputer` / `setWithComputed` / `runCompute`), and the
dependency-tracking core it delegates to.

The tracking core (`createProxy`, `isChanged`, `getUntracked`, `markToTrack`)
comes from the `proxy-compare` dependency, whose code is not part of this
repository; those parts are modelled from the specification (spec sections
4.1 and 4.2), as noted on each definition.

JavaScript values are modelled by `Value`: primitives carry their contents,
objects carry an identity tag (`id`) plus an association list of fields.
Reference equality (`Object.is`) coincides with structural equality of
`Value`, because each runtime allocation receives a fresh identity tag.
-/

set_option autoImplicit false

namespace ZustandTracked

mutual

/-- A JavaScript value: `undefined`, a number, a string, or an object.
An object carries an identity tag modelling its reference, so two separately
allocated objects with equal contents are distinct `Value`s. -/
inductive Value where
  | undefined : Value
  | num : Int → Value
  | str : String → Value
  | obj : Nat → Fields → Value
deriving DecidableEq

/-- The fields of an object: an ordered association list from member names to
values (JavaScript objects have no duplicate keys; well-formedness is captured
separately by `wfFields`). -/
inductive Fields where
  | nil : Fields
  | cons : String → Value → Fields → Fields
deriving DecidableEq

end

/-- Reference equality (JavaScript `Object.is`) on modelled values:
identical primitives, or the same object reference. Since an object's
identity tag is part of the `Value`, this is exactly structural equality. -/
def objectIs (a b : Value) : Bool :=
  decide (a = b)

/-- Member lookup in a field list (first occurrence wins, as in a
duplicate-free JavaScript object). -/
def lookupF : Fields → String → Option Value
  | .nil, _ => none
  | .cons k v rest, key => if k = key then some v else lookupF rest key

/-- Does the field list contain the key? -/
def hasKeyF : Fields → String → Bool
  | .nil, _ => false
  | .cons k _ rest, key => k = key || hasKeyF rest key

/-- Reading member `key` of a value: `undefined` for absent members and for
non-object bases. -/
def getMember (v : Value) (key : String) : Value :=
  match v with
  | .obj _ fs => (lookupF fs key).getD .undefined
  | _ => .undefined

/-- Auxiliary for `spreadF`: keep entries of the first operand whose key is
not overridden by the second. -/
def spreadAux (b : Fields) : Fields → Fields
  | .nil => b
  | .cons k v rest => if hasKeyF b k then spreadAux b rest else .cons k v (spreadAux b rest)

/-- JavaScript object spread `{ ...a, ...b }`: entries of `b` override
entries of `a`. -/
def spreadF (a b : Fields) : Fields :=
  spreadAux b a

mutual

/-- Size measure on values, used for strong induction over the nested
object structure. -/
def vsize : Value → Nat
  | .undefined => 1
  | .num _ => 1
  | .str _ => 1
  | .obj _ fs => 1 + fsize fs

/-- Size measure on field lists. -/
def fsize : Fields → Nat
  | .nil => 1
  | .cons _ v rest => 1 + vsize v + fsize rest

end

mutual

/-- Well-formedness of a value as a real JavaScript value: every object's
field list is duplicate-free, recursively. -/
def wfValue : Value → Bool
  | .obj _ fs => wfFields fs
  | _ => true

/-- Well-formedness of a field list: duplicate-free keys and well-formed
member values. -/
def wfFields : Fields → Bool
  | .nil => true
  | .cons k v rest => !hasKeyF rest k && wfValue v && wfFields rest

end

/-- A trace (the `affected` WeakMap of the tracking core): for each object
identity read during a tracked execution, the list of member names read on
it. Modelled from the spec: the trace maps each object read, by identity, to
the set of its member names that were read, with nested objects appearing
under their own identity. -/
abbrev Trace := List (Nat × List String)

/-- Look up the member names recorded against an object identity. -/
def lookupTrace : Trace → Nat → Option (List String)
  | [], _ => none
  | (i, ks) :: rest, j => if i = j then some ks else lookupTrace rest j

/-- Record that member `k` was read on the object with identity `i`. -/
def addRead : Trace → Nat → String → Trace
  | [], i, k => [(i, [k])]
  | (j, ks) :: rest, i, k =>
    if j = i then (j, if k ∈ ks then ks else ks ++ [k]) :: rest
    else (j, ks) :: addRead rest i k

/-- Recorded member names that are absent from the previous object's fields:
the previous side reads as `undefined`, compared against the next side with
the equality function. -/
def missingKeysChanged (eq : Value → Value → Bool) (fs : Fields) (keys : List String) (n : Value) : Bool :=
  keys.any (fun k => !hasKeyF fs k && !eq .undefined (getMember n k))

mutual

/-- Change detection below the root, modelled from the spec (section 4.2):
for a previous-side value recorded in the trace, every recorded member is
resolved on both sides and compared recursively; a value with no nested
trace is a leaf and is compared with the equality function. Returns true as
soon as one traced leaf differs. -/
def isChangedMem (tr : Trace) (eq : Value → Value → Bool) : Value → Value → Bool
  | .obj i fs, n =>
    match lookupTrace tr i with
    | some keys => changedFields tr eq fs keys n || missingKeysChanged eq fs keys n
    | none => !eq (.obj i fs) n
  | p, n => !eq p n

/-- Walk the previous object's fields; each field whose key was recorded in
the trace is compared (recursively) against the corresponding member of the
next-side value. -/
def changedFields (tr : Trace) (eq : Value → Value → Bool) : Fields → List String → Value → Bool
  | .nil, _, _ => false
  | .cons k v rest, keys, n =>
    (decide (k ∈ keys) && isChangedMem tr eq v (getMember n k)) || changedFields tr eq rest keys n

end

/-- The Change Detector, modelled from the spec (section 4.2):
`isChanged(prevRaw, nextRaw, trace, equalityFn)`. If `prevRaw` is undefined
(first execution) it returns true unconditionally. Otherwise every member
recorded in the trace against the previous root is resolved along the same
path on both sides and compared, recursing into nested traces and comparing
leaves with the equality function; a root with no recorded reads has no
traced fields, so nothing differs. The `compareCache` parameter of the
source is pure memoization within one call and has no observable effect, so
it is not modelled. -/
def isChangedRoot (prev : Option Value) (next : Value) (tr : Trace) (eq : Value → Value → Bool) : Bool :=
  match prev with
  | none => true
  | some (.obj i fs) =>
    match lookupTrace tr i with
    | some keys => changedFields tr eq fs keys next || missingKeysChanged eq fs keys next
    | none => false
  | some _ => false

/-- Recorded member names absent from the previous object's fields agree
when the next side also reads as `undefined` there. -/
def missingKeysAgree (fs : Fields) (keys : List String) (n : Value) : Bool :=
  keys.all (fun k => hasKeyF fs k || objectIs .undefined (getMember n k))

mutual

/-- Claim-side agreement below the root: the pointwise mirror of
`isChangedMem`. Two values agree on a trace when every member recorded
against the previous-side object is resolved on both sides and agrees
recursively, leaves agreeing under the equality function `objectIs`. -/
def agreesMem (tr : Trace) : Value → Value → Bool
  | .obj i fs, n =>
    match lookupTrace tr i with
    | some keys => fieldsAgree tr fs keys n && missingKeysAgree fs keys n
    | none => objectIs (.obj i fs) n
  | p, n => objectIs p n

/-- Every field of the previous object whose key was recorded in the trace
agrees with the corresponding member of the next-side value. -/
def fieldsAgree (tr : Trace) : Fields → List String → Value → Bool
  | .nil, _, _ => true
  | .cons k v rest, keys, n =>
    (!decide (k ∈ keys) || agreesMem tr v (getMember n k)) && fieldsAgree tr rest keys n

end

/-- Claim-side agreement at the root: `next` agrees with `prev` on every
field recorded in the trace (fields never read do not participate). This is
the property language of the spec's guarantees; `agreesRoot_bridge`
relates it to the Change Detector. -/
def agreesRoot (tr : Trace) (prev next : Value) : Bool :=
  match prev with
  | .obj i fs =>
    match lookupTrace tr i with
    | some keys => fieldsAgree tr fs keys next && missingKeysAgree fs keys next
    | none => true
  | _ => true

/-! ## Selector and compute functions as read expressions

A selector (or compute-field) function is pure and reads only its state
argument, so it is embedded as a syntactic expression over the state: member
reads (possibly chained through nested objects), literals, arithmetic
combination of two reads, and a truthiness conditional (which gives
run-dependent dependency sets, as in the repository test
`(s) => text === 'a' ? s.count : s.count + 1`). -/

/-- A pure read function over the state. -/
inductive Expr where
  | stateRoot : Expr
  | field : Expr → String → Expr
  | lit : Value → Expr
  | add : Expr → Expr → Expr
  | cond : Expr → Expr → Expr → Expr
deriving DecidableEq

/-- JavaScript truthiness of a modelled value. -/
def truthy : Value → Bool
  | .undefined => false
  | .num n => n != 0
  | .str s => s ≠ ""
  | .obj _ _ => true

/-- Numeric addition; non-numbers give `undefined` (standing in for `NaN`,
which never equals anything under `Object.is` with a fresh allocation and is
irrelevant to the claims). -/
def numAdd : Value → Value → Value
  | .num a, .num b => .num (a + b)
  | _, _ => .undefined

/-- Direct untracked evaluation of a read expression against a raw state. -/
def evalU (s : Value) : Expr → Value
  | .stateRoot => s
  | .field e key => getMember (evalU s e) key
  | .lit v => v
  | .add a b => numAdd (evalU s a) (evalU s b)
  | .cond c t e => if truthy (evalU s c) then evalU s t else evalU s e

/-- Tracked evaluation through an Access-Tracker facade, modelled from the
spec (section 4.1): evaluating against a facade over the state records every
member read into the trace, keyed by the identity of the object read on, and
nested object reads return facades over the nested objects so deeper reads
are recorded too. The `Bool` component tells whether the result is reached
through the facade (reads on objects that did not come from the state, e.g.
literals, are not recorded). Returns (value, tracked?, trace). -/
def evalT (s : Value) : Expr → Trace → Value × Bool × Trace
  | .stateRoot, tr => (s, true, tr)
  | .field e key, tr =>
    match evalT s e tr with
    | (.obj i fs, true, tr1) => ((lookupF fs key).getD .undefined, true, addRead tr1 i key)
    | (v, _, tr1) => (getMember v key, false, tr1)
  | .lit v, tr => (v, false, tr)
  | .add a b, tr =>
    match evalT s a tr with
    | (va, _, tr1) =>
      match evalT s b tr1 with
      | (vb, _, tr2) => (numAdd va vb, false, tr2)
  | .cond c t e, tr =>
    match evalT s c tr with
    | (vc, _, tr1) => if truthy vc then evalT s t tr1 else evalT s e tr1

/-! ## The Tracked Selector unit (`useTrackedSelector`, source lines 88-114
and 277-315)

One instance per consumer: refs `prevState`, `affected`, and the cached
`trackedValue`, plus the `firstRun` guard of the memoized accessor. The
`calls` field instruments the number of selector invocations for the claims
about recomputation counts. -/

/-- The per-consumer state of `useTrackedSelector`. -/
structure SelState where
  prevState : Option Value
  affected : Trace
  trackedValue : Value
  firstRun : Bool
  calls : Nat
deriving DecidableEq

/-- The refs as initialized by `useTrackedSelector` before the first call:
no previous state, an empty trace, an `undefined` cache, and the first-run
guard set. -/
def SelState.start : SelState :=
  { prevState := none, affected := [], trackedValue := .undefined, firstRun := true, calls := 0 }

/-- One tracked execution of the selector: a fresh trace, a facade over the
state, the selector invoked against it (source: `affected.current = new
WeakMap(); const proxy = createProxy(state, affected.current);
selector(proxy)`). Returns the (unwrapped) value and the trace. -/
def runSelector (sel : Expr) (state : Value) : Value × Trace :=
  match evalT state sel [] with
  | (v, _, tr) => (v, tr)

/-- The body of the memoized accessor with the dirty-check outcome as an
explicit argument: `if (touched || firstRun) { recompute and cache } else
{ return cached }` (source lines 96-111). -/
def applySelectorCore (sel : Expr) (touched : Bool) (st : SelState) (state : Value) : Value × SelState :=
  if touched || st.firstRun then
    match runSelector sel state with
    | (v, tr) =>
      (v, { prevState := some state, affected := tr, trackedValue := v,
            firstRun := false, calls := st.calls + 1 })
  else (st.trackedValue, st)

/-- The memoized accessor returned by `useTrackedSelector`: runs the Change
Detector on (previous state, incoming state, stored trace) with `Object.is`,
then the guarded recompute-or-cache step. -/
def applySelector (sel : Expr) (st : SelState) (state : Value) : Value × SelState :=
  applySelectorCore sel (isChangedRoot st.prevState state st.affected objectIs) st state

/-! ## The Tracked Computer unit (`createTrackedComputer` /
`createComputerImplementation`, source lines 37-86 and 214-275)

The compute function returns a partial of derived fields; it is embedded as
a literal list of (derived field name, read expression). Every object
allocation of the simulated run (`{ ...a, ...b }` spreads and committed
states) draws a fresh identity from the `nextId` supply, so `Object.is`
distinguishes allocations exactly as the runtime does. -/

/-- The compute function `(state) => ({ k1: e1, k2: e2, ... })`. -/
abbrev Computation := List (String × Expr)

/-- Evaluate every derived-field expression of a compute function against a
facade over `state`, all reads accumulating into one trace (the object
literal evaluates its members in order). -/
def evalCompute (state : Value) : Computation → Trace → Fields × Trace
  | [], tr => (.nil, tr)
  | (k, e) :: rest, tr =>
    match evalT state e tr with
    | (v, _, tr1) =>
      match evalCompute state rest tr1 with
      | (others, tr2) => (.cons k v others, tr2)

/-- The store-level state owned by one Tracked Computer: the committed store
state (`get()`), the previously observed raw state (`proxyState`, undefined
until the first `runCompute`), the stored trace (`affected`), the number of
`compute` invocations, and the allocation id supply. -/
structure CompState where
  store : Value
  proxyState : Option Value
  affected : Trace
  calls : Nat
  nextId : Nat

/-- The argument accepted by a state-setting call: a literal partial update
or a function from the current state to a partial update. -/
inductive SetArg where
  | lit : Fields → SetArg
  | fn : (Value → Fields) → SetArg

/-- Resolution of the argument:
`typeof partial === 'function' ? partial(get()) : partial`. -/
def resolveArg (a : SetArg) (current : Value) : Fields :=
  match a with
  | .lit fs => fs
  | .fn g => g current

/-- The fields of a state object (`undefined` spreads as no fields, which is
what `{ ...get(), ... }` does before the store is initialized). -/
def fieldsOf : Value → Fields
  | .obj _ fs => fs
  | _ => .nil

/-- The candidate next raw state `{ ...get(), ...nextPartial }`: a fresh
allocation merging the current store state with the resolved partial. -/
def resolveMerge (s : CompState) (upd : Fields) : Value :=
  .obj s.nextId (spreadF (fieldsOf s.store) upd)

/-- The host container's native commit (zustand `set` with `replace` false):
`state = Object.assign({}, state, nextPartial)`, a fresh allocation. -/
def commitSet (upd : Fields) (s : CompState) : CompState :=
  { s with store := .obj s.nextId (spreadF (fieldsOf s.store) upd), nextId := s.nextId + 1 }

/-- The function `runCompute(state)` (source lines 46-53 and 226-242): allocate
`proxyState = { ...get(), ...state }`, start a fresh trace, run `compute`
against a facade over it, store the trace and the observed state, and return
the computed (unwrapped) derived fields. -/
def runCompute (c : Computation) (stateF : Fields) (s : CompState) : Fields × CompState :=
  let ps : Value := .obj s.nextId (spreadF (fieldsOf s.store) stateF)
  match evalCompute ps c [] with
  | (computed, tr) =>
    (computed,
     { s with proxyState := some ps, affected := tr, calls := s.calls + 1,
              nextId := s.nextId + 1 })

/-- The function `setWithComputed(partial, replace)` (source lines 55-75 and 244-264):
resolve the partial, build the candidate `merged = { ...get(),
...nextPartial }`, run the Change Detector against the previously observed
state and the stored trace with `Object.is`; on a hit re-run `compute` on
the candidate and commit `{ ...nextPartial, ...computed }`, otherwise commit
just the resolved partial. -/
def setWithComputed (c : Computation) (a : SetArg) (s : CompState) : CompState :=
  let upd := resolveArg a s.store
  let merged := resolveMerge s upd
  let s1 : CompState := { s with nextId := s.nextId + 1 }
  if isChangedRoot s.proxyState merged s.affected objectIs then
    match runCompute c (fieldsOf merged) s1 with
    | (computed, s2) => commitSet (spreadF upd computed) s2
  else
    commitSet upd s1

/-- Store construction (source lines 81-83 and 270-272): run the creator to
obtain the initial raw state, run `compute` once over it (at that point
`get()` is still undefined), and commit `{ ...initialState,
...initialComputed }`. -/
def initComputer (c : Computation) (initF : Fields) (startId : Nat) : CompState :=
  let s0 : CompState :=
    { store := .undefined, proxyState := none, affected := [], calls := 0, nextId := startId }
  match runCompute c initF s0 with
  | (computed, s1) =>
    { s1 with store := .obj s1.nextId (spreadF initF computed), nextId := s1.nextId + 1 }

/-- The derived fields freshly computed during a state-setting call that
took the changed branch: what `runCompute(merged)` returns inside
`setWithComputed`. -/
def computedOf (c : Computation) (a : SetArg) (s : CompState) : Fields :=
  (runCompute c (fieldsOf (resolveMerge s (resolveArg a s.store)))
    { s with nextId := s.nextId + 1 }).1

/-- A sequence of external state-setting calls. -/
def runSets (c : Computation) : CompState → List SetArg → CompState
  | s, [] => s
  | s, a :: rest => runSets c (setWithComputed c a s) rest

/-- Claim-side count of the calls in a sequence whose candidate next state
differed, under `Object.is`, from the previously observed state in at least
one field recorded in compute's stored trace at the time of the call (a call
before any observed state counts as differing). The sequence advances
through the real steps; only the counting predicate is the claim's. -/
def dirtyCount (c : Computation) : CompState → List SetArg → Nat
  | _, [] => 0
  | s, a :: rest =>
    (match s.proxyState with
     | none => 1
     | some pv => if agreesRoot s.affected pv (resolveMerge s (resolveArg a s.store)) then 0 else 1)
      + dirtyCount c (setWithComputed c a s) rest

/-- The slice of the store api whose public state-setting entry point the
Tracked Computer replaces. -/
structure StoreApi where
  setState : SetArg → CompState → CompState

/-- The wiring performed by `createComputerImplementation` (source lines
77-81 and 266-270): `Object.assign(api, { setState: setWithComputed })`
replaces the public entry point, and the creator is invoked with
`setWithComputed` as its `set`. Returns the mutated api together with the
`set` function handed to the creator. -/
def wireComputer (c : Computation) (api : StoreApi) : StoreApi × (SetArg → CompState → CompState) :=
  ({ api with setState := setWithComputed c }, setWithComputed c)

/-! ## Facade-explicit view of returned values (for the unwrapping claim)

The embedding above is facade-transparent: tracked reads return raw values.
To reason about which returned values still carry a tracking facade, this
finer view distinguishes a plain raw value from a facade over a raw value
(the only shapes the read DSL can produce, since it cannot allocate objects
around a facade). -/

/-- A value as seen by the selector/compute caller: plain, or a tracking
facade wrapping a raw value. -/
inductive FValue where
  | plain : Value → FValue
  | facade : Value → FValue
deriving DecidableEq

/-- The raw value underneath (facades are read-transparent). -/
def rawOf : FValue → Value
  | .plain v => v
  | .facade v => v

/-- Facade-explicit tracked evaluation, modelled from the spec (section
4.1): the state root arrives as a facade (`createProxy` wraps object
values), reading a member that is itself an object through a facade returns
a facade over it, and every other result is a plain value. Trace recording
is the facade-transparent `evalT`'s; only facade-ness is of interest here. -/
def evalFacade (s : Value) : Expr → FValue
  | .stateRoot => match s with
    | .obj i fs => .facade (.obj i fs)
    | v => .plain v
  | .field e key =>
    match evalFacade s e with
    | .facade v =>
      match getMember v key with
      | .obj j fs => .facade (.obj j fs)
      | w => .plain w
    | .plain v => .plain (getMember v key)
  | .lit v => .plain v
  | .add a b => .plain (numAdd (rawOf (evalFacade s a)) (rawOf (evalFacade s b)))
  | .cond c t e => if truthy (rawOf (evalFacade s c)) then evalFacade s t else evalFacade s e

/-- The function `getUntracked(valueOrFacade)` of the tracking core, modelled from the
spec (section 4.1): recovers the original untracked value from a facade and
returns null (here `none`) for anything else. -/
def getUntracked : FValue → Option Value
  | .facade v => some v
  | .plain _ => none

/-- The return step of the optimized variant (source lines 241 and 309):
`getUntracked(value) ?? value`. -/
def unwrapReturn (t : FValue) : FValue :=
  match getUntracked t with
  | some v => .plain v
  | none => t

/-- The value cached and returned by the simple variant's accessor (source
line 108): the selector's result, unmodified. -/
def selectorResultSimple (sel : Expr) (state : Value) : FValue :=
  evalFacade state sel

/-- The value cached and returned by the optimized variant's accessor
(source line 309): the selector's result through `getUntracked(value) ??
value`. -/
def selectorResultUnwrapped (sel : Expr) (state : Value) : FValue :=
  unwrapReturn (evalFacade state sel)

/-- Is the value (still) a tracking facade? -/
def isFacadeF : FValue → Bool
  | .facade _ => true
  | .plain _ => false

/-! ## Concrete scenario inputs

Inputs from the repository's test scenarios, used to instantiate the claims
at explicit concrete values. -/

/-- The selector `(s) => s.count`. -/
def countSel : Expr := .field .stateRoot "count"

/-- The raw state `{ count: 0, text: 'a' }`. -/
def stateA : Value := .obj 0 (.cons "count" (.num 0) (.cons "text" (.str "a") .nil))

/-- A freshly allocated raw state `{ count: 0, text: 'b' }`: same `count`,
different `text`, different reference. -/
def stateB : Value := .obj 1 (.cons "count" (.num 0) (.cons "text" (.str "b") .nil))

/-- The raw state `{ count: 0 }`. -/
def stateZ : Value := .obj 0 (.cons "count" (.num 0) .nil)

/-- A freshly allocated raw state `{ count: 1 }`. -/
def stateC : Value := .obj 1 (.cons "count" (.num 1) .nil)

/-- The compute function `(s) => ({ double: s.count + s.count })`. -/
def doubleCompute : Computation :=
  [("double", .add (.field .stateRoot "count") (.field .stateRoot "count"))]

/-- A Tracked Computer over `doubleCompute` initialized with
`{ count: 1, double: 0 }`. -/
def doubleStart : CompState :=
  initComputer doubleCompute (.cons "count" (.num 1) (.cons "double" (.num 0) .nil)) 0

/-- The compute function `(s) => ({ d: s.d + 1 })`, which reads the very
field it computes. -/
def selfCompute : Computation := [("d", .add (.field .stateRoot "d") (.lit (.num 1)))]

/-- A Tracked Computer over `selfCompute` initialized with `{ d: 0 }`
(committing `{ d: 1 }` after the initial compute run). -/
def selfStart : CompState := initComputer selfCompute (.cons "d" (.num 0) .nil) 0

/-! ## Supporting lemmas -/

theorem objectIs_refl (v : Value) : objectIs v v = true := by
  simp [objectIs]

theorem eq_of_objectIs {a b : Value} (h : objectIs a b = true) : a = b := by
  simpa [objectIs] using h

theorem lookupF_eq_none : ∀ (fs : Fields) (k : String), hasKeyF fs k = false → lookupF fs k = none
  | .nil, _, _ => rfl
  | .cons k' _ rest, k, h => by
    simp only [hasKeyF, Bool.or_eq_false_iff, decide_eq_false_iff_not] at h
    simp [lookupF, h.1, lookupF_eq_none rest k h.2]

theorem hasKeyF_of_lookupF : ∀ {fs : Fields} {k : String} {v : Value},
    lookupF fs k = some v → hasKeyF fs k = true
  | .nil, k, v, h => by simp [lookupF] at h
  | .cons k' w rest, k, v, h => by
    by_cases hk : k' = k
    · simp [hasKeyF, hk]
    · simp only [lookupF, if_neg hk] at h
      simp [hasKeyF, hasKeyF_of_lookupF h]

theorem spreadAux_lookup (b : Fields) :
    ∀ (a : Fields) (k : String),
      lookupF (spreadAux b a) k = if hasKeyF b k then lookupF b k else lookupF a k
  | .nil, k => by
    simp only [spreadAux, lookupF]
    split
    · rfl
    · exact lookupF_eq_none b k (by simp_all)
  | .cons k' v rest, k => by
    simp only [spreadAux]
    by_cases hb : hasKeyF b k'
    · rw [if_pos hb, spreadAux_lookup b rest k]
      by_cases hk : k' = k
      · subst hk
        simp [lookupF, hb]
      · simp [lookupF, hk]
    · rw [if_neg hb]
      by_cases hk : k' = k
      · subst hk
        simp [lookupF, hb]
      · simp only [lookupF, if_neg hk, spreadAux_lookup b rest k]

theorem lookupF_spreadF (a b : Fields) (k : String) :
    lookupF (spreadF a b) k = if hasKeyF b k then lookupF b k else lookupF a k :=
  spreadAux_lookup b a k

theorem getMember_spread_hit (fs upd : Fields) (i : Nat) (k : String)
    (h : hasKeyF upd k = true) :
    getMember (.obj i (spreadF fs upd)) k = (lookupF upd k).getD .undefined := by
  simp [getMember, lookupF_spreadF, h]

theorem getMember_spread_miss (fs upd : Fields) (i : Nat) (k : String)
    (h : hasKeyF upd k = false) :
    getMember (.obj i (spreadF fs upd)) k = (lookupF fs k).getD .undefined := by
  simp [getMember, lookupF_spreadF, h]

theorem lookupF_vsize : ∀ {fs : Fields} {k : String} {v : Value},
    lookupF fs k = some v → vsize v < fsize fs
  | .nil, k, v, h => by simp [lookupF] at h
  | .cons k' w rest, k, v, h => by
    by_cases hk : k' = k
    · simp only [lookupF, if_pos hk, Option.some.injEq] at h
      subst h
      simp only [fsize]
      omega
    · simp only [lookupF, if_neg hk] at h
      have := lookupF_vsize h
      simp only [fsize]
      omega

theorem wfValue_of_lookupF : ∀ {fs : Fields} {k : String} {v : Value},
    wfFields fs = true → lookupF fs k = some v → wfValue v = true
  | .nil, k, v, _, h => by simp [lookupF] at h
  | .cons k' w rest, k, v, hwf, h => by
    simp only [wfFields, Bool.and_eq_true] at hwf
    by_cases hk : k' = k
    · simp only [lookupF, if_pos hk, Option.some.injEq] at h
      subst h
      exact hwf.1.2
    · simp only [lookupF, if_neg hk] at h
      exact wfValue_of_lookupF hwf.2 h

theorem vsize_pos (v : Value) : 1 ≤ vsize v := by
  cases v <;> simp [vsize]

theorem evalT_fst (s : Value) (e : Expr) : ∀ tr : Trace, (evalT s e tr).1 = evalU s e := by
  induction e with
  | stateRoot => intro tr; rfl
  | field e key ih =>
    intro tr
    simp only [evalT, evalU]
    rcases he : evalT s e tr with ⟨v, flag, tr1⟩
    have hv : v = evalU s e := by
      have := ih tr
      rw [he] at this
      exact this
    subst hv
    cases hval : evalU s e with
    | obj i fs =>
      cases flag with
      | true => simp [getMember]
      | false => simp
    | undefined => cases flag <;> simp
    | num n => cases flag <;> simp
    | str t => cases flag <;> simp
  | lit v => intro tr; rfl
  | add a b iha ihb =>
    intro tr
    simp only [evalT, evalU]
    rcases ha : evalT s a tr with ⟨va, fa, tr1⟩
    rcases hb : evalT s b tr1 with ⟨vb, fb, tr2⟩
    have hva : va = evalU s a := by have := iha tr; rw [ha] at this; exact this
    have hvb : vb = evalU s b := by have := ihb tr1; rw [hb] at this; exact this
    simp [hva, hvb]
  | cond c t e ihc iht ihe =>
    intro tr
    simp only [evalT, evalU]
    rcases hc : evalT s c tr with ⟨vc, fc, tr1⟩
    have hvc : vc = evalU s c := by have := ihc tr; rw [hc] at this; exact this
    subst hvc
    by_cases ht : truthy (evalU s c)
    · simp [ht, iht tr1]
    · simp [ht, ihe tr1]

theorem missingKeys_bridge (fs : Fields) (n : Value) :
    ∀ keys : List String,
      missingKeysAgree fs keys n = !missingKeysChanged objectIs fs keys n := by
  intro keys
  induction keys with
  | nil => rfl
  | cons k rest ih =>
    simp only [missingKeysAgree, missingKeysChanged, List.all_cons, List.any_cons,
      Bool.not_or] at *
    rw [ih]
    cases hasKeyF fs k <;> cases objectIs .undefined (getMember n k) <;> simp

mutual

theorem agreesMem_bridge (tr : Trace) :
    ∀ (p n : Value), agreesMem tr p n = !isChangedMem tr objectIs p n
  | .obj i fs, n => by
    simp only [agreesMem, isChangedMem]
    cases lookupTrace tr i with
    | none => simp
    | some keys =>
      simp only [Bool.not_or]
      rw [fieldsAgree_bridge tr fs keys n, missingKeys_bridge]
  | .undefined, n => by simp [agreesMem, isChangedMem]
  | .num a, n => by simp [agreesMem, isChangedMem]
  | .str a, n => by simp [agreesMem, isChangedMem]

theorem fieldsAgree_bridge (tr : Trace) :
    ∀ (fs : Fields) (keys : List String) (n : Value),
      fieldsAgree tr fs keys n = !changedFields tr objectIs fs keys n
  | .nil, keys, n => by simp [fieldsAgree, changedFields]
  | .cons k v rest, keys, n => by
    simp only [fieldsAgree, changedFields, Bool.not_or, Bool.not_and]
    rw [agreesMem_bridge tr v (getMember n k), fieldsAgree_bridge tr rest keys n]

end

/-- The claim-side agreement predicate is exactly the negation of the Change
Detector's verdict (for a defined previous state). -/
theorem agreesRoot_bridge (tr : Trace) (p n : Value) :
    agreesRoot tr p n = !isChangedRoot (some p) n tr objectIs := by
  cases p with
  | obj i fs =>
    simp only [agreesRoot, isChangedRoot]
    cases lookupTrace tr i with
    | none => simp
    | some keys =>
      simp only [Bool.not_or]
      rw [fieldsAgree_bridge tr fs keys n, missingKeys_bridge]
  | undefined => rfl
  | num a => rfl
  | str a => rfl

theorem missingKeys_self (fs : Fields) (i : Nat) (keys : List String) :
    missingKeysChanged objectIs fs keys (.obj i fs) = false := by
  simp only [missingKeysChanged, List.any_eq_false]
  intro k _
  cases hk : hasKeyF fs k with
  | true => simp
  | false =>
    simp [getMember, lookupF_eq_none fs k hk, objectIs_refl]

mutual

theorem changedMem_self (tr : Trace) :
    ∀ (v : Value), wfValue v = true → isChangedMem tr objectIs v v = false
  | .obj i fs, hwf => by
    simp only [isChangedMem]
    cases lookupTrace tr i with
    | none => simp [objectIs_refl]
    | some keys =>
      simp only [Bool.or_eq_false_iff]
      refine ⟨?_, missingKeys_self fs i keys⟩
      exact changedFields_self tr fs fs keys i hwf (fun _ _ h => h) hwf
  | .undefined, _ => by simp [isChangedMem, objectIs_refl]
  | .num a, _ => by simp [isChangedMem, objectIs_refl]
  | .str a, _ => by simp [isChangedMem, objectIs_refl]

theorem changedFields_self (tr : Trace) :
    ∀ (full sub : Fields) (keys : List String) (i : Nat),
      wfFields full = true →
      (∀ k v, lookupF sub k = some v → lookupF full k = some v) →
      wfFields sub = true →
      changedFields tr objectIs sub keys (.obj i full) = false
  | full, .nil, keys, i, _, _, _ => by simp [changedFields]
  | full, .cons k v rest, keys, i, hfull, hsub, hwfsub => by
    simp only [wfFields, Bool.and_eq_true] at hwfsub
    simp only [changedFields, Bool.or_eq_false_iff, Bool.and_eq_false_iff]
    constructor
    · right
      have hlk : lookupF full k = some v := hsub k v (by simp [lookupF])
      have hm : getMember (.obj i full) k = v := by simp [getMember, hlk]
      rw [hm]
      exact changedMem_self tr v hwfsub.1.2
    · refine changedFields_self tr full rest keys i hfull ?_ hwfsub.2
      intro k' v' hl
      refine hsub k' v' ?_
      by_cases hk : k = k'
      · subst hk
        rw [lookupF_eq_none rest k (by simpa using hwfsub.1.1)] at hl
        exact absurd hl (by simp)
      · simp [lookupF, hk, hl]

end

/-- The Change Detector's verdict depends on the next-side value only
through its members. -/
theorem changedFields_congr (tr : Trace) (eq : Value → Value → Bool) {n n' : Value}
    (h : ∀ k, getMember n k = getMember n' k) :
    ∀ (fs : Fields) (keys : List String),
      changedFields tr eq fs keys n = changedFields tr eq fs keys n'
  | .nil, keys => rfl
  | .cons k v rest, keys => by
    simp only [changedFields]
    rw [h k, changedFields_congr tr eq h rest keys]

theorem missingKeysChanged_congr (eq : Value → Value → Bool) (fs : Fields)
    (keys : List String) {n n' : Value} (h : ∀ k, getMember n k = getMember n' k) :
    missingKeysChanged eq fs keys n = missingKeysChanged eq fs keys n' := by
  simp only [missingKeysChanged]
  congr 1
  funext k
  rw [h k]

theorem isChangedRoot_congr (tr : Trace) (eq : Value → Value → Bool) (p : Value)
    {n n' : Value} (h : ∀ k, getMember n k = getMember n' k) :
    isChangedRoot (some p) n tr eq = isChangedRoot (some p) n' tr eq := by
  cases p with
  | obj i fs =>
    cases hlk : lookupTrace tr i with
    | none => simp [isChangedRoot, hlk]
    | some keys =>
      simp [isChangedRoot, hlk, changedFields_congr tr eq h fs keys,
        missingKeysChanged_congr eq fs keys h]
  | undefined => rfl
  | num a => rfl
  | str a => rfl

/-- A well-formed previous state is never reported changed against a next
state with identical members (under any trace). -/
theorem isChangedRoot_members_eq (tr : Trace) {p n : Value}
    (hwf : wfValue p = true) (h : ∀ k, getMember n k = getMember p k) :
    isChangedRoot (some p) n tr objectIs = false := by
  cases p with
  | obj i fs =>
    simp only [isChangedRoot]
    cases hlk : lookupTrace tr i with
    | none => rfl
    | some keys =>
      simp only [Bool.or_eq_false_iff]
      constructor
      · rw [changedFields_congr tr objectIs h fs keys]
        exact changedFields_self tr fs fs keys i hwf (fun _ _ hx => hx) hwf
      · rw [missingKeysChanged_congr objectIs fs keys h]
        exact missingKeys_self fs i keys
  | undefined => rfl
  | num a => rfl
  | str a => rfl

theorem applySelector_start (sel : Expr) (S : Value) :
    applySelector sel SelState.start S =
      ((runSelector sel S).1,
       { prevState := some S, affected := (runSelector sel S).2,
         trackedValue := (runSelector sel S).1, firstRun := false, calls := 1 }) := by
  rcases h : runSelector sel S with ⟨v, tr⟩
  simp [applySelector, applySelectorCore, SelState.start, isChangedRoot, h]

theorem applySelector_cached (sel : Expr) (st : SelState) (S : Value)
    (h1 : isChangedRoot st.prevState S st.affected objectIs = false)
    (h2 : st.firstRun = false) :
    applySelector sel st S = (st.trackedValue, st) := by
  simp [applySelector, applySelectorCore, h1, h2]

theorem applySelector_recompute (sel : Expr) (st : SelState) (S : Value)
    (h1 : isChangedRoot st.prevState S st.affected objectIs = true) :
    applySelector sel st S =
      ((runSelector sel S).1,
       { prevState := some S, affected := (runSelector sel S).2,
         trackedValue := (runSelector sel S).1, firstRun := false,
         calls := st.calls + 1 }) := by
  rcases h : runSelector sel S with ⟨v, tr⟩
  simp [applySelector, applySelectorCore, h1, h]

theorem setWithComputed_untouched (c : Computation) (a : SetArg) (s : CompState)
    (h : isChangedRoot s.proxyState (resolveMerge s (resolveArg a s.store))
           s.affected objectIs = false) :
    setWithComputed c a s =
      commitSet (resolveArg a s.store) { s with nextId := s.nextId + 1 } := by
  simp [setWithComputed, h]

theorem setWithComputed_touched (c : Computation) (a : SetArg) (s : CompState)
    (h : isChangedRoot s.proxyState (resolveMerge s (resolveArg a s.store))
           s.affected objectIs = true) :
    setWithComputed c a s =
      commitSet (spreadF (resolveArg a s.store) (computedOf c a s))
        ((runCompute c (fieldsOf (resolveMerge s (resolveArg a s.store)))
          { s with nextId := s.nextId + 1 }).2) := by
  rcases hrc : runCompute c (fieldsOf (resolveMerge s (resolveArg a s.store)))
      { s with nextId := s.nextId + 1 } with ⟨comp, s2⟩
  simp [setWithComputed, h, hrc, computedOf]

theorem commitSet_calls (upd : Fields) (s : CompState) :
    (commitSet upd s).calls = s.calls := rfl

theorem runCompute_snd_calls (c : Computation) (stateF : Fields) (s : CompState) :
    ((runCompute c stateF s).2).calls = s.calls + 1 := by
  rcases h : evalCompute (.obj s.nextId (spreadF (fieldsOf s.store) stateF)) c []
    with ⟨comp, tr⟩
  simp [runCompute, h]

theorem setWithComputed_calls (c : Computation) (a : SetArg) (s : CompState) :
    (setWithComputed c a s).calls =
      s.calls +
        (if isChangedRoot s.proxyState (resolveMerge s (resolveArg a s.store))
              s.affected objectIs then 1 else 0) := by
  by_cases h : isChangedRoot s.proxyState (resolveMerge s (resolveArg a s.store))
      s.affected objectIs = true
  · rw [setWithComputed_touched c a s h, commitSet_calls, runCompute_snd_calls, h]
    simp
  · have h' : isChangedRoot s.proxyState (resolveMerge s (resolveArg a s.store))
        s.affected objectIs = false := by simpa using h
    rw [setWithComputed_untouched c a s h', commitSet_calls, h']
    simp

theorem runSets_calls (c : Computation) :
    ∀ (args : List SetArg) (s : CompState),
      (runSets c s args).calls = s.calls + dirtyCount c s args
  | [], s => by simp [runSets, dirtyCount]
  | a :: rest, s => by
    simp only [runSets, dirtyCount]
    rw [runSets_calls c rest (setWithComputed c a s), setWithComputed_calls]
    cases hpv : s.proxyState with
    | none => simp [isChangedRoot]; omega
    | some pv =>
      simp only [agreesRoot_bridge]
      cases isChangedRoot (some pv) (resolveMerge s (resolveArg a s.store))
          s.affected objectIs with
      | false => simp
      | true =>
        simp
        omega

theorem runSelector_fst (sel : Expr) (S : Value) : (runSelector sel S).1 = evalU S sel := by
  rcases h : evalT S sel [] with ⟨v, flag, tr⟩
  have := evalT_fst S sel []
  rw [h] at this
  simpa [runSelector, h] using this

theorem getMember_fieldsOf (v : Value) (k : String) :
    (lookupF (fieldsOf v) k).getD .undefined = getMember v k := by
  cases v <;> simp [fieldsOf, getMember, lookupF]

theorem lookupF_isSome : ∀ {fs : Fields} {k : String},
    hasKeyF fs k = true → ∃ v, lookupF fs k = some v
  | .nil, k, h => by simp [hasKeyF] at h
  | .cons k' w rest, k, h => by
    by_cases hk : k' = k
    · exact ⟨w, by simp [lookupF, hk]⟩
    · simp only [hasKeyF, Bool.or_eq_true, decide_eq_true_eq] at h
      rcases h with h | h
      · exact absurd h hk
      · rcases lookupF_isSome h with ⟨v, hv⟩
        exact ⟨v, by simp [lookupF, hk, hv]⟩

theorem hasKeyF_spreadF_right {b : Fields} {k : String} (a : Fields)
    (h : hasKeyF b k = true) : hasKeyF (spreadF a b) k = true := by
  rcases lookupF_isSome h with ⟨v, hv⟩
  refine hasKeyF_of_lookupF (v := v) ?_
  rw [lookupF_spreadF, if_pos h, hv]

theorem runCompute_snd_store (c : Computation) (stateF : Fields) (s : CompState) :
    ((runCompute c stateF s).2).store = s.store := by
  rcases h : evalCompute (.obj s.nextId (spreadF (fieldsOf s.store) stateF)) c []
    with ⟨comp, tr⟩
  simp [runCompute, h]

theorem runCompute_snd_nextId (c : Computation) (stateF : Fields) (s : CompState) :
    ((runCompute c stateF s).2).nextId = s.nextId + 1 := by
  rcases h : evalCompute (.obj s.nextId (spreadF (fieldsOf s.store) stateF)) c []
    with ⟨comp, tr⟩
  simp [runCompute, h]

theorem initComputer_calls (c : Computation) (initF : Fields) (startId : Nat) :
    (initComputer c initF startId).calls = 1 := by
  rcases h : runCompute c initF
      { store := .undefined, proxyState := none, affected := [], calls := 0,
        nextId := startId } with ⟨comp, s1⟩
  have hc := runCompute_snd_calls c initF
      { store := .undefined, proxyState := none, affected := [], calls := 0,
        nextId := startId }
  rw [h] at hc
  simp only at hc
  simp [initComputer, h, hc]

/-! ## The claims -/

/-- C1: for every pair of raw states `S1`, `S2` such that `S2` agrees with
`S1` on every field recorded in the selector's stored trace, applying the
memoized tracked-selector accessor to `S1` and then to `S2` returns the same
value by reference (the cached value, without re-invoking the selector
function). -/
theorem selector_cached_on_traced_agreement (sel : Expr) (S1 S2 : Value)
    (h : agreesRoot ((applySelector sel SelState.start S1).2).affected S1 S2 = true) :
    (applySelector sel ((applySelector sel SelState.start S1).2) S2).1
        = (applySelector sel SelState.start S1).1
      ∧ (applySelector sel ((applySelector sel SelState.start S1).2) S2).2.calls
        = ((applySelector sel SelState.start S1).2).calls := by
  have h1 := applySelector_start sel S1
  have haff : ((applySelector sel SelState.start S1).2).affected = (runSelector sel S1).2 := by
    rw [h1]
  have hprev : ((applySelector sel SelState.start S1).2).prevState = some S1 := by rw [h1]
  have hfr : ((applySelector sel SelState.start S1).2).firstRun = false := by rw [h1]
  have htv : ((applySelector sel SelState.start S1).2).trackedValue
      = (runSelector sel S1).1 := by rw [h1]
  have hval : (applySelector sel SelState.start S1).1 = (runSelector sel S1).1 := by rw [h1]
  have hch : isChangedRoot ((applySelector sel SelState.start S1).2).prevState S2
      ((applySelector sel SelState.start S1).2).affected objectIs = false := by
    rw [hprev, haff]
    rw [haff, agreesRoot_bridge] at h
    simpa using h
  have hc := applySelector_cached sel ((applySelector sel SelState.start S1).2) S2 hch hfr
  exact ⟨by rw [hc, htv, hval], by rw [hc]⟩

/-- Witness for C1: the selector `(s) => s.count`, applied to
`{ count: 0, text: 'a' }` and then to a fresh state with the same `count`
but different `text` and a different root reference, returns the cached
value without a second selector invocation. -/
theorem selector_cached_on_traced_agreement_witness :
    agreesRoot ((applySelector countSel SelState.start stateA).2).affected stateA stateB
        = true
    ∧ (applySelector countSel ((applySelector countSel SelState.start stateA).2) stateB).1
        = (applySelector countSel SelState.start stateA).1
    ∧ (applySelector countSel
          ((applySelector countSel SelState.start stateA).2) stateB).2.calls
        = ((applySelector countSel SelState.start stateA).2).calls :=
  ⟨by decide,
   (selector_cached_on_traced_agreement countSel stateA stateB (by decide)).1,
   (selector_cached_on_traced_agreement countSel stateA stateB (by decide)).2⟩

/-- C3: for every pair of raw states that differ in at least one field
recorded in the selector's trace, applying the accessor to `S1` and then to
`S2` invokes the selector exactly once more, and the returned value equals a
direct untracked evaluation of the selector on `S2`. -/
theorem selector_recomputes_on_traced_difference (sel : Expr) (S1 S2 : Value)
    (h : agreesRoot ((applySelector sel SelState.start S1).2).affected S1 S2 = false) :
    (applySelector sel ((applySelector sel SelState.start S1).2) S2).2.calls
        = ((applySelector sel SelState.start S1).2).calls + 1
      ∧ (applySelector sel ((applySelector sel SelState.start S1).2) S2).1
        = evalU S2 sel := by
  have h1 := applySelector_start sel S1
  have haff : ((applySelector sel SelState.start S1).2).affected = (runSelector sel S1).2 := by
    rw [h1]
  have hprev : ((applySelector sel SelState.start S1).2).prevState = some S1 := by rw [h1]
  have hch : isChangedRoot ((applySelector sel SelState.start S1).2).prevState S2
      ((applySelector sel SelState.start S1).2).affected objectIs = true := by
    rw [hprev, haff]
    rw [haff, agreesRoot_bridge] at h
    simpa using h
  have hr := applySelector_recompute sel ((applySelector sel SelState.start S1).2) S2 hch
  exact ⟨by rw [hr], by rw [hr]; exact runSelector_fst sel S2⟩

/-- Witness for C3: the selector `(s) => s.count`, applied to `{ count: 0 }`
and then to a fresh state with `count = 1`, runs a second time and returns
the value of a direct untracked evaluation. -/
theorem selector_recomputes_on_traced_difference_witness :
    agreesRoot ((applySelector countSel SelState.start stateZ).2).affected stateZ stateC
        = false
    ∧ (applySelector countSel
          ((applySelector countSel SelState.start stateZ).2) stateC).2.calls
        = ((applySelector countSel SelState.start stateZ).2).calls + 1
    ∧ (applySelector countSel ((applySelector countSel SelState.start stateZ).2) stateC).1
        = evalU stateC countSel :=
  ⟨by decide,
   (selector_recomputes_on_traced_difference countSel stateZ stateC (by decide)).1,
   (selector_recomputes_on_traced_difference countSel stateZ stateC (by decide)).2⟩

/-- C8: the Change Detector, called with an undefined previous raw state
(first execution), returns true unconditionally, for every next state, trace
and equality function. -/
theorem isChangedRoot_true_of_no_prev (next : Value) (tr : Trace)
    (eq : Value → Value → Bool) : isChangedRoot none next tr eq = true := rfl

/-- C10: the very first invocation of the memoized accessor always invokes
the selector and caches its result, whatever the dirty check returned on
that call, so the accessor never returns its uninitialized cache. -/
theorem selector_first_run_always_computes (sel : Expr) (state : Value) (touched : Bool) :
    (applySelectorCore sel touched SelState.start state).1 = evalU state sel
      ∧ (applySelectorCore sel touched SelState.start state).2.calls = 1
      ∧ (applySelectorCore sel touched SelState.start state).2.firstRun = false
      ∧ (applySelectorCore sel touched SelState.start state).2.trackedValue
          = evalU state sel := by
  have hguard : (touched || SelState.start.firstRun) = true := by simp [SelState.start]
  rcases h : runSelector sel state with ⟨v, tr⟩
  have hv : v = evalU state sel := by
    have := runSelector_fst sel state
    rw [h] at this
    exact this
  simp [applySelectorCore, hguard, h, hv, SelState.start]

/-- C2: after any sequence of state-setting calls following initialization,
the total number of `compute` invocations equals 1 (the initialization run)
plus the number of calls whose candidate next state differed, under
`Object.is`, from the previously observed state in at least one field
recorded in compute's stored trace; `compute` is never invoked on a call
where no previously-read dependency changed. -/
theorem computer_calls_count (c : Computation) (initF : Fields) (startId : Nat)
    (args : List SetArg) :
    (runSets c (initComputer c initF startId) args).calls
      = 1 + dirtyCount c (initComputer c initF startId) args := by
  rw [runSets_calls, initComputer_calls]

/-- C4: on a state-setting call where the dirty check reports no change in
any traced field, the commit consists only of the caller's resolved partial
update: every field not set by the caller (in particular every derived
field) carries forward its previous value by the same reference, the stored
trace is not replaced, the previously observed state is not replaced, and
`compute` does not run. -/
theorem setWithComputed_unchanged_frame (c : Computation) (a : SetArg) (s : CompState)
    (k : String)
    (h : isChangedRoot s.proxyState (resolveMerge s (resolveArg a s.store))
           s.affected objectIs = false)
    (hk : hasKeyF (resolveArg a s.store) k = false) :
    (setWithComputed c a s).affected = s.affected
      ∧ (setWithComputed c a s).proxyState = s.proxyState
      ∧ (setWithComputed c a s).calls = s.calls
      ∧ (setWithComputed c a s).store
          = .obj (s.nextId + 1) (spreadF (fieldsOf s.store) (resolveArg a s.store))
      ∧ getMember (setWithComputed c a s).store k = getMember s.store k := by
  rw [setWithComputed_untouched c a s h]
  refine ⟨rfl, rfl, rfl, rfl, ?_⟩
  show getMember (.obj (s.nextId + 1) (spreadF (fieldsOf s.store) (resolveArg a s.store))) k
      = getMember s.store k
  rw [getMember_spread_miss _ _ _ _ hk, getMember_fieldsOf]

/-- Witness for C4: on the `doubleCompute` store (state
`{ count: 1, double: 2 }` after initialization), a set call with an empty
partial is reported unchanged; the commit keeps trace, observed state and
compute count, and `double` is carried forward by the same reference. -/
theorem setWithComputed_unchanged_frame_witness :
    (setWithComputed doubleCompute (.lit .nil) doubleStart).affected
        = doubleStart.affected
      ∧ (setWithComputed doubleCompute (.lit .nil) doubleStart).proxyState
        = doubleStart.proxyState
      ∧ (setWithComputed doubleCompute (.lit .nil) doubleStart).calls
        = doubleStart.calls
      ∧ (setWithComputed doubleCompute (.lit .nil) doubleStart).store
        = .obj (doubleStart.nextId + 1)
            (spreadF (fieldsOf doubleStart.store) (resolveArg (.lit .nil) doubleStart.store))
      ∧ getMember (setWithComputed doubleCompute (.lit .nil) doubleStart).store "double"
        = getMember doubleStart.store "double" :=
  setWithComputed_unchanged_frame doubleCompute (.lit .nil) doubleStart "double"
    (by decide) (by decide)

/-- C9: on a state-setting call where the dirty check reports a change, the
committed update is the caller's resolved partial overlaid with the freshly
computed derived fields (`{ ...nextPartial, ...computed }`); for any field
name present in both, the freshly computed value overwrites the
caller-supplied one. -/
theorem setWithComputed_changed_commit (c : Computation) (a : SetArg) (s : CompState)
    (k : String)
    (h : isChangedRoot s.proxyState (resolveMerge s (resolveArg a s.store))
           s.affected objectIs = true)
    (hk : hasKeyF (computedOf c a s) k = true) :
    (setWithComputed c a s).store
        = .obj (s.nextId + 2)
            (spreadF (fieldsOf s.store)
              (spreadF (resolveArg a s.store) (computedOf c a s)))
      ∧ getMember (setWithComputed c a s).store k
        = (lookupF (computedOf c a s) k).getD .undefined := by
  rw [setWithComputed_touched c a s h]
  have hs2 := runCompute_snd_store c (fieldsOf (resolveMerge s (resolveArg a s.store)))
    { s with nextId := s.nextId + 1 }
  have hn2 := runCompute_snd_nextId c (fieldsOf (resolveMerge s (resolveArg a s.store)))
    { s with nextId := s.nextId + 1 }
  simp only at hs2 hn2
  constructor
  · simp [commitSet, hs2, hn2]
  · have hcomb : hasKeyF (spreadF (resolveArg a s.store) (computedOf c a s)) k = true :=
      hasKeyF_spreadF_right _ hk
    simp only [commitSet, hs2, hn2]
    rw [getMember_spread_hit _ _ _ _ hcomb, lookupF_spreadF, if_pos hk]

/-- Witness for C9: on the `doubleCompute` store, the call
`set({ count: 2, double: 99 })` takes the changed branch; the commit is the
partial overlaid with the fresh computed fields, and the freshly computed
`double = 4` overwrites the caller-supplied `99`. -/
theorem setWithComputed_changed_commit_witness :
    (setWithComputed doubleCompute
        (.lit (.cons "count" (.num 2) (.cons "double" (.num 99) .nil))) doubleStart).store
        = .obj (doubleStart.nextId + 2)
            (spreadF (fieldsOf doubleStart.store)
              (spreadF
                (resolveArg (.lit (.cons "count" (.num 2) (.cons "double" (.num 99) .nil)))
                  doubleStart.store)
                (computedOf doubleCompute
                  (.lit (.cons "count" (.num 2) (.cons "double" (.num 99) .nil)))
                  doubleStart)))
      ∧ getMember
          (setWithComputed doubleCompute
            (.lit (.cons "count" (.num 2) (.cons "double" (.num 99) .nil))) doubleStart).store
          "double"
        = (lookupF
            (computedOf doubleCompute
              (.lit (.cons "count" (.num 2) (.cons "double" (.num 99) .nil))) doubleStart)
            "double").getD .undefined :=
  setWithComputed_changed_commit doubleCompute
    (.lit (.cons "count" (.num 2) (.cons "double" (.num 99) .nil))) doubleStart "double"
    (by decide) (by decide)

/-- C7: after `createTrackedComputer` is applied to a store creator, the
store api's public `setState` is replaced by the dirty-checking
`setWithComputed`, the `set` handed to the wrapped creator is the same
`setWithComputed`, and hence a mutation through the public entry point whose
dirty check reports no change never runs `compute`. -/
theorem wireComputer_replaces_setState (c : Computation) (api : StoreApi) :
    (wireComputer c api).1.setState = setWithComputed c
      ∧ (wireComputer c api).2 = setWithComputed c
      ∧ ∀ (a : SetArg) (s : CompState),
          isChangedRoot s.proxyState (resolveMerge s (resolveArg a s.store))
              s.affected objectIs = false →
          ((wireComputer c api).1.setState a s).calls = s.calls := by
  refine ⟨rfl, rfl, ?_⟩
  intro a s h
  show (setWithComputed c a s).calls = s.calls
  rw [setWithComputed_untouched c a s h]
  rfl

/-- Witness for C7: wiring `doubleCompute` over a native-commit api replaces
the entry point, and an unchanged set call through the public `setState`
leaves the compute count untouched. -/
theorem wireComputer_replaces_setState_witness :
    (wireComputer doubleCompute { setState := fun upd s => commitSet (resolveArg upd s.store) s }).1.setState
        = setWithComputed doubleCompute
      ∧ (wireComputer doubleCompute { setState := fun upd s => commitSet (resolveArg upd s.store) s }).2
        = setWithComputed doubleCompute
      ∧ ((wireComputer doubleCompute { setState := fun upd s => commitSet (resolveArg upd s.store) s }).1.setState
          (.lit .nil) doubleStart).calls = doubleStart.calls :=
  ⟨(wireComputer_replaces_setState doubleCompute
      { setState := fun upd s => commitSet (resolveArg upd s.store) s }).1,
   (wireComputer_replaces_setState doubleCompute
      { setState := fun upd s => commitSet (resolveArg upd s.store) s }).2.1,
   (wireComputer_replaces_setState doubleCompute
      { setState := fun upd s => commitSet (resolveArg upd s.store) s }).2.2
     (.lit .nil) doubleStart (by decide)⟩

/-- Counterexample to C5: on the `selfCompute` store — whose compute
function `(s) => ({ d: s.d + 1 })` reads the very field it computes — the
committed state after initialization is `{ d: 1 }`, yet the call
`set({ d: 1 })`, which sets `d` to its current committed value, runs
`compute` a second time and changes the committed output to `{ d: 2 }`.
Setting a field to its current value thus neither guarantees zero
recomputation nor an unchanged output. -/
theorem idempotent_set_counterexample :
    getMember selfStart.store "d" = .num 1
      ∧ selfStart.calls = 1
      ∧ (setWithComputed selfCompute (.lit (.cons "d" (.num 1) .nil)) selfStart).calls = 2
      ∧ getMember (setWithComputed selfCompute (.lit (.cons "d" (.num 1) .nil)) selfStart).store "d"
          = .num 2 := by
  decide

/-- C5 as amended: setting fields to values identical under `Object.is` to
their current values triggers zero recomputation and leaves the output
observably unchanged — unconditionally for a tracked selector (on any
well-formed previous state), and for a tracked computer provided its
previously observed state still agrees with the committed state on the
fields recorded in compute's trace (which holds whenever compute reads no
field whose value it itself changed, but fails otherwise, as the
counterexample shows). -/
theorem idempotent_set_amended (sel : Expr) (st : SelState) (S Snew : Value)
    (c : Computation) (s : CompState) (pv : Value) (upd : Fields) (j : Nat) (fs : Fields)
    (k : String)
    (hprev : st.prevState = some S) (hfr : st.firstRun = false)
    (hwfS : wfValue S = true)
    (hSmem : ∀ m, getMember Snew m = getMember S m)
    (hstore : s.store = .obj j fs)
    (hpv : s.proxyState = some pv)
    (hsettle : agreesRoot s.affected pv s.store = true)
    (hupd : ∀ m, hasKeyF upd m = true → lookupF upd m = lookupF fs m) :
    (applySelector sel st Snew).1 = st.trackedValue
      ∧ (applySelector sel st Snew).2.calls = st.calls
      ∧ (setWithComputed c (.lit upd) s).calls = s.calls
      ∧ getMember (setWithComputed c (.lit upd) s).store k = getMember s.store k
      ∧ (setWithComputed c (.lit upd) s).affected = s.affected
      ∧ (setWithComputed c (.lit upd) s).proxyState = s.proxyState := by
  have hchS : isChangedRoot st.prevState Snew st.affected objectIs = false := by
    rw [hprev]
    exact isChangedRoot_members_eq st.affected hwfS hSmem
  have hcache := applySelector_cached sel st Snew hchS hfr
  have hmerge : ∀ m, getMember (resolveMerge s upd) m = getMember s.store m := by
    intro m
    rw [hstore]
    simp only [resolveMerge, hstore, fieldsOf, getMember, lookupF_spreadF]
    by_cases hm : hasKeyF upd m = true
    · rw [if_pos hm, hupd m hm]
    · rw [if_neg hm]
  have hchC : isChangedRoot s.proxyState (resolveMerge s (resolveArg (.lit upd) s.store))
      s.affected objectIs = false := by
    rw [hpv]
    show isChangedRoot (some pv) (resolveMerge s upd) s.affected objectIs = false
    rw [isChangedRoot_congr s.affected objectIs pv hmerge]
    rw [agreesRoot_bridge] at hsettle
    simpa using hsettle
  have hset := setWithComputed_untouched c (.lit upd) s hchC
  refine ⟨by rw [hcache], by rw [hcache], by rw [hset]; rfl, ?_, by rw [hset]; rfl,
    by rw [hset]; rfl⟩
  rw [hset]
  show getMember (.obj (s.nextId + 1) (spreadF (fieldsOf s.store) upd)) k
      = getMember s.store k
  have := hmerge k
  simpa [resolveMerge] using this

/-- Witness for C5 as amended: the selector `(s) => s.count` with a cached
run over `{ count: 0, text: 'a' }` receiving a freshly allocated state with
identical members, and the `doubleCompute` store receiving
`set({ count: 1 })` where `count` is already `1`: no recompute, no
observable change. -/
theorem idempotent_set_amended_witness :
    (applySelector countSel ((applySelector countSel SelState.start stateA).2)
        (.obj 2 (.cons "count" (.num 0) (.cons "text" (.str "a") .nil)))).1
        = ((applySelector countSel SelState.start stateA).2).trackedValue
      ∧ (applySelector countSel ((applySelector countSel SelState.start stateA).2)
          (.obj 2 (.cons "count" (.num 0) (.cons "text" (.str "a") .nil)))).2.calls
        = ((applySelector countSel SelState.start stateA).2).calls
      ∧ (setWithComputed doubleCompute (.lit (.cons "count" (.num 1) .nil)) doubleStart).calls
        = doubleStart.calls
      ∧ getMember
          (setWithComputed doubleCompute (.lit (.cons "count" (.num 1) .nil)) doubleStart).store
          "double"
        = getMember doubleStart.store "double"
      ∧ (setWithComputed doubleCompute (.lit (.cons "count" (.num 1) .nil)) doubleStart).affected
        = doubleStart.affected
      ∧ (setWithComputed doubleCompute (.lit (.cons "count" (.num 1) .nil)) doubleStart).proxyState
        = doubleStart.proxyState :=
  idempotent_set_amended countSel ((applySelector countSel SelState.start stateA).2)
    stateA (.obj 2 (.cons "count" (.num 0) (.cons "text" (.str "a") .nil)))
    doubleCompute doubleStart (.obj 0 (.cons "count" (.num 1) (.cons "double" (.num 0) .nil)))
    (.cons "count" (.num 1) .nil) 1
    (.cons "count" (.num 1) (.cons "double" (.num 2) .nil)) "double"
    (by decide) (by decide) (by decide)
    (fun m => rfl)
    (by decide) (by decide) (by decide)
    (by
      intro m hm
      have : "count" = m := by
        simpa [hasKeyF] using hm
      subst this
      decide)

/-- Counterexample to C6: in the simple variant (source lines 88-114), the
accessor caches and returns the selector's result without any unwrapping, so
the identity selector — the accessor's default — returns the tracking facade
over the state itself rather than a plain untracked value. -/
theorem unwrapped_return_counterexample :
    isFacadeF (selectorResultSimple .stateRoot stateZ) = true
      ∧ selectorResultSimple .stateRoot stateZ = .facade stateZ := by
  decide

/-- C6 as amended: in the optimized variant, the value a tracked-selector
accessor caches and returns (and likewise the value `runCompute` merges)
passes through `getUntracked(value) ?? value`, so a result that is itself a
tracking facade is unwrapped to the original untracked value and the
returned value is never a facade; the simple variant performs no such
unwrapping. -/
theorem unwrapped_return_amended :
    (∀ (sel : Expr) (state : Value),
        isFacadeF (selectorResultUnwrapped sel state) = false)
      ∧ (∀ t : FValue, isFacadeF (unwrapReturn t) = false)
      ∧ (∀ v : Value, unwrapReturn (.facade v) = .plain v)
      ∧ selectorResultUnwrapped .stateRoot stateZ = .plain stateZ := by
  refine ⟨?_, ?_, fun v => rfl, by decide⟩
  · intro sel state
    unfold selectorResultUnwrapped unwrapReturn
    cases evalFacade state sel <;> simp [getUntracked, isFacadeF]
  · intro t
    cases t <;> simp [unwrapReturn, getUntracked, isFacadeF]

end ZustandTracked
